import Mathlib

/-!
Verification development for the repository DepSpiel/telegram-pidrgpt,
file src/bot/perplexity_client.py (class PerplexityClient).

Modelling conventions.

* A Python `str` is a sequence of Unicode codepoints; it is modelled as
  `List Char` (named `Str` below).  `len`, slicing and concatenation on
  Python strings correspond to `List.length`, `List.take`/`List.drop` and
  `List.append`, all counted in codepoints.
* The shipped source file lost escape sequences inside string and regex
  literals (for example the replacement argument `r"\u0001"` on line 159 is
  the remnant of a backreference, and several string literals span physical
  lines where a line-break escape used to be).  The file is modelled as the
  program it denotes when each string literal that spans lines is read as
  containing the line-break characters at those positions; every literal
  that is well-formed on one line is taken exactly as written.  In
  particular the regex patterns are taken at face value: `r"[d+]"` is a
  character class deleting the characters `d` and `+`, and `r"**(.*?)**"`
  is rejected by the Python regex compiler ("nothing to repeat" at the
  leading `*`), so the second statement of the `try` block in
  `_format_content_refined` raises `re.error` on every input and the
  function always returns the `except`-branch fallback string.  A small
  model of the CPython quantifier-placement check (`reValidPattern`)
  witnesses this.
* Python runtime exceptions are modelled with `Option`: `none` is a raised
  exception, and a `try/except` is a `match` on that `Option`.
* `str.strip()` / `str.rstrip()` strip Python whitespace; they are modelled
  with `Char.isWhitespace`, which agrees on the ASCII whitespace relevant
  here.  `str.lower()` is modelled with `Char.toLower`, which agrees with
  Python on ASCII input.
* Python `dict`s (insertion ordered, unique keys) and `list`s inside the
  decoded JSON response are modelled by the mutually inductive `PyVal`,
  `PyEntries`, `PyItems` below; `PyEntries` is the ordered key/value list
  of a mapping.
* The outbound HTTP calls are external collaborators.  Their outcome is an
  explicit parameter: `ApiOutcome` for the completion request, and a
  `probeOk : Bool` flag for the image liveness probe (`True` iff the HEAD
  request returned status 200 without raising).
* `hashlib.md5` is the standard MD5 digest; it is implemented below over
  `Nat` arithmetic (RFC 1321) together with the UTF-8 encoding used by
  `str.encode()`.
-/

set_option maxRecDepth 8000

/-- Python strings as lists of codepoints. -/
abbrev Str : Type := List Char

/-- `str.lstrip()`: drop leading whitespace. -/
def pyStripLeft (s : Str) : Str := s.dropWhile Char.isWhitespace

/-- `str.rstrip()` (no arguments): drop trailing whitespace. -/
def pyStripRight (s : Str) : Str := (s.reverse.dropWhile Char.isWhitespace).reverse

/-- `str.strip()`: drop leading and trailing whitespace. -/
def pyStrip (s : Str) : Str := pyStripRight (pyStripLeft s)

/-- `str.rstrip(".!?")` as used on sentence candidates. -/
def rstripPunct (s : Str) : Str :=
  (s.reverse.dropWhile (fun c => c == '.' || c == '!' || c == '?')).reverse

/-- `str.lower()`, ASCII fragment. -/
def toLowerStr (s : Str) : Str := s.map Char.toLower

/-- Python `needle in hay` on strings: substring test. -/
def containsSub (hay needle : Str) : Bool :=
  if needle.isPrefixOf hay then true
  else
    match hay with
    | [] => false
    | _ :: t => containsSub t needle

/-- Python `s.split(sep)` for a one-character separator: `"".split` gives `[""]`. -/
def splitOnChar (c : Char) : Str → List Str
  | [] => [[]]
  | x :: rest =>
    if x = c then [] :: splitOnChar c rest
    else
      match splitOnChar c rest with
      | h :: t => (x :: h) :: t
      | [] => [[x]]

/-- Python `s.replace(old, new)` for a one-character `old`. -/
def replaceChar (c : Char) (rep : Str) (s : Str) : Str :=
  s.flatMap (fun x => if x = c then rep else [x])

/-- Python `"\n".join(pieces)` / `chr(10).join(pieces)`. -/
def joinNewline : List Str → Str
  | [] => []
  | [b] => b
  | b :: r => b ++ '\n' :: joinNewline r

/-!
### The final 800-character clamp

All three clamping sites of the source (`_format_content_refined` lines
209-210 and 221-222, `_create_refined_fallback_content` lines 401-402) are
the same statement: `if len(x) > 800: x = x[:799] + "…"`.
-/

/-- The hard 800-character safety clamp. -/
def clamp800 (s : Str) : Str :=
  if 800 < s.length then s.take 799 ++ "…".data else s

/-!
### Model of the CPython quantifier-placement check

`re.compile` rejects a quantifier (`*`, `+`, `?`) that does not follow a
repeatable atom ("nothing to repeat" / "multiple repeat"); a single `?`
directly after a quantifier is the lazy marker and is accepted.  The
scanner below covers the constructs appearing in the cleanup patterns of
`_format_content_refined`: literals, `\`-escapes, character classes,
`(?:`-groups and plain groups, alternation, anchors, and the dot.  State:
remaining pattern, open-group depth, `canQuant` (a repeatable atom was just
read), `allowLazy` (a quantifier was just read), `inClass` (inside `[...]`).
-/
def reScan : Nat → Str → Nat → Bool → Bool → Bool → Bool
  | _, [], d, _, _, inClass => !inClass && decide (d = 0)
  | 0, _ :: _, _, _, _, _ => false
  | fuel + 1, '\\' :: rest, d, _, _, inClass =>
    (match rest with
     | [] => false
     | _ :: r =>
       if inClass then reScan fuel r d false false true
       else reScan fuel r d true false false)
  | fuel + 1, '(' :: '?' :: ':' :: r, d, _, _, inClass =>
    if inClass then reScan fuel r d false false true
    else reScan fuel r (d + 1) false false false
  | fuel + 1, c :: r, d, cq, al, inClass =>
    if inClass then
      if c = ']' then reScan fuel r d true false false
      else reScan fuel r d false false true
    else if c = '*' ∨ c = '+' then
      (if cq then reScan fuel r d false true false else false)
    else if c = '?' then
      (if cq then reScan fuel r d false true false
       else if al then reScan fuel r d false false false
       else false)
    else if c = '[' then reScan fuel r d false false true
    else if c = '(' then reScan fuel r (d + 1) false false false
    else if c = ')' then (if d = 0 then false else reScan fuel r (d - 1) true false false)
    else if c = '|' then reScan fuel r d false false false
    else if c = '^' ∨ c = '$' then reScan fuel r d false false false
    else reScan fuel r d true false false

/-- Whether `re.compile` accepts the pattern (quantifier-placement
fragment).  Each scanner step consumes at least one character, so the
pattern length is enough fuel. -/
def reValidPattern (p : Str) : Bool := reScan p.length p 0 false false false

/-- The markdown-bold pattern of line 159, exactly as in the source. -/
def boldPattern : Str := "**(.*?)**".data

/-- Line 158, `re.sub(r"[d+]", "", content)`: the pattern is a character
class, so the call deletes every `d` and `+` character. -/
def removeCitationChars (s : Str) : Str :=
  s.filter (fun c => !(c == 'd' || c == '+'))

/-- The `try` block of `_format_content_refined` (lines 157-212).  Its first
statement (line 158) succeeds; its second statement (line 159) calls
`re.sub` with `boldPattern`, which the regex compiler rejects, raising
`re.error` — modelled by `none`.  The `some` branch is the remainder of the
block, reached only if the pattern were accepted; `reValidPattern
boldPattern` is `false` (theorem `boldPattern_rejected`), so that branch is
unreachable and the value carried there is never produced. -/
def formatTryBody (content : Str) : Option Str :=
  let cleanContent := removeCitationChars content
  if reValidPattern boldPattern then some cleanContent else none

/-- The string built by the `except` branch of `_format_content_refined`
(lines 216-220): four adjacent literals, concatenated with no separator. -/
def formatExceptRaw (date : Str) : Str :=
  "📈 **Crypto Market Update**".data
    ++ "📅 *".data ++ date ++ "*".data
    ++ "• Comprehensive market analysis in progress".data
    ++ "*#CryptoNews #MarketOverview*".data

/-- `_format_content_refined(content, date)` (lines 151-223): the `try`
block always raises (see `formatTryBody`), so the function returns the
`except`-branch fallback, clamped to 800 characters. -/
def formatContentRefined (content date : Str) : Str :=
  match formatTryBody content with
  | some r => r
  | none => clamp800 (formatExceptRaw date)

/-!
### Bulletization: `_convert_to_detailed_bullets` (lines 225-263)

Line 229 runs `re.sub(r"(?:#w+s*)+$", "", content)`.  The pattern (its
backslashes lost) matches, anchored at the end of the string, one or more
blocks of a `#` followed by one or more literal `w` and zero or more
literal `s` characters; `re.sub` removes the longest such suffix (the
leftmost position from which the pattern matches through to the end).  The
deterministic automaton `hashRunStep` below recognises exactly the strings
matched by `(?:#w+s*)+$` from a given position: state 0 expects the first
`#` of a block, state 1 the mandatory first `w`, state 2 is inside `w+`
(may end, continue with `w`, move to `s*` or start a new block), state 3 is
inside `s*` (may end, continue with `s` or start a new block).
-/
def hashRunStep : Nat → Str → Bool
  | 0, '#' :: r => hashRunStep 1 r
  | 0, _ => false
  | 1, 'w' :: r => hashRunStep 2 r
  | 1, _ => false
  | 2, [] => true
  | 2, 'w' :: r => hashRunStep 2 r
  | 2, 's' :: r => hashRunStep 3 r
  | 2, '#' :: r => hashRunStep 1 r
  | 2, _ => false
  | 3, [] => true
  | 3, 's' :: r => hashRunStep 3 r
  | 3, '#' :: r => hashRunStep 1 r
  | _, _ => false

/-- Whether the whole string matches `(?:#w+s*)+` (so the anchored pattern
matches from its first character through the end). -/
def isHashtagRun (s : Str) : Bool := hashRunStep 0 s

/-- Line 229 without the final `.strip()`: remove the longest suffix
matching the anchored pattern (the sub replaces the leftmost match, which
necessarily runs to the end of the string). -/
def stripHashtagSuffix : Str → Str
  | [] => []
  | c :: rest =>
    if isHashtagRun (c :: rest) then []
    else c :: stripHashtagSuffix rest

/-- The `enhancements` mapping of `_enhance_short_bullet` (lines 268-274),
in insertion order (Python dictionaries preserve it). -/
def enhancementTable : List (Str × Str) :=
  [("bitcoin".data, "Bitcoin continues its market leadership with institutional interest".data),
   ("ethereum".data, "Ethereum shows network strength amid ongoing development".data),
   ("market".data, "Market dynamics reflect broader economic sentiment".data),
   ("price".data, "Price action indicates key technical levels".data),
   ("trading".data, "Trading volumes suggest increased market participation".data)]

/-- The `for key, enhancement in enhancements.items()` loop of
`_enhance_short_bullet` (lines 277-279): return the enhancement of the
first key contained in the lowercased bullet, provided `len(bullet) < 50`;
otherwise fall through. -/
def enhanceLoop : List (Str × Str) → Str → Str → Str
  | [], _, bullet => bullet
  | (key, enh) :: rest, low, bullet =>
    if containsSub low key ∧ bullet.length < 50 then enh
    else enhanceLoop rest low bullet

/-- `_enhance_short_bullet(bullet)` (lines 265-284).  The `try` body cannot
raise, so the `except` branch is dead. -/
def enhanceShortBullet (bullet : Str) : Str :=
  enhanceLoop enhancementTable (toLowerStr bullet) bullet

/-- Spec-side description of the keyword lookup: the canned sentence of the
first keyword of the fixed mapping occurring in the lowercased text, if
any. -/
def firstEnhancement : List (Str × Str) → Str → Option Str
  | [], _ => none
  | (key, enh) :: rest, low =>
    if containsSub low key then some enh else firstEnhancement rest low

/-- `_generate_comprehensive_bullets()` (lines 286-295): the fixed 6-entry
comprehensive bullet set. -/
def comprehensiveBullets : List Str :=
  ["• Bitcoin maintains consolidation above key support levels with institutional accumulation patterns emerging".data,
   "• Ethereum demonstrates network resilience with increasing validator participation and Layer 2 adoption growth".data,
   "• Top altcoins including BNB, XRP, and SOL show divergent performance reflecting sector-specific developments".data,
   "• Market sentiment indicators suggest cautious optimism amid ongoing regulatory clarity initiatives".data,
   "• DeFi and AI token sectors attract renewed interest following recent technological breakthroughs".data,
   "• Technical analysis reveals critical support and resistance zones shaping near-term price trajectories".data]

/-- Lines 229-251 of `_convert_to_detailed_bullets`: hashtag-suffix strip,
sentence split on `.`/`!`/`?` via the `|` marker, strip, discard units of
15 characters or fewer, strip trailing terminal punctuation, enhance
candidates under 60 characters, prefix the bullet glyph. -/
def rawBullets (content : Str) : List Str :=
  let content := pyStrip (stripHashtagSuffix content)
  let temp := replaceChar '?' ("?|".data) (replaceChar '!' ("!|".data)
    (replaceChar '.' (".|".data) content))
  let rawSentences := ((splitOnChar '|' temp).map pyStrip).filter (fun s => !s.isEmpty)
  let sentences := rawSentences.filter (fun s => 15 < s.length)
  sentences.filterMap (fun s =>
    let s := pyStrip (rstripPunct s)
    if s.isEmpty then none
    else some ('•' :: ' ' :: (if s.length < 60 then enhanceShortBullet s else s)))

/-- `_convert_to_detailed_bullets(content)` (lines 225-263).  The `try`
body cannot raise (the line-229 pattern compiles), so the `except` branch
is dead; lines 254-257 enforce the 4-6 bullet count. -/
def convertToDetailedBullets (content : Str) : List Str :=
  let bullets := rawBullets content
  if bullets.length < 4 then comprehensiveBullets
  else if 6 < bullets.length then bullets.take 6
  else bullets

/-!
### Bullet truncation: `_truncate_bullets_refined` (lines 297-322)
-/

/-- Line 314: `bullet[: available_chars - 3].rstrip() + "..."`. -/
def shortenBullet (bullet : Str) (availableChars : Int) : Str :=
  pyStripRight (bullet.take (availableChars - 3).toNat) ++ "...".data

/-- The `for bullet in bullets` loop of `_truncate_bullets_refined`
(lines 305-316), with the running `current_length` accumulator: keep whole
bullets while they fit (length plus one for the newline), else append a
shortened version when more than 30 characters of budget remain, and stop. -/
def truncWalk : List Str → Int → Int → List Str
  | [], _, _ => []
  | bullet :: rest, maxChars, currentLength =>
    if currentLength + ((bullet.length : Int) + 1) ≤ maxChars then
      bullet :: truncWalk rest maxChars (currentLength + ((bullet.length : Int) + 1))
    else if 30 < maxChars - currentLength then [shortenBullet bullet (maxChars - currentLength)]
    else []

/-- `_truncate_bullets_refined(bullets, max_chars)` (lines 297-322). -/
def truncateBulletsRefined (bullets : List Str) (maxChars : Int) : List Str :=
  if maxChars ≤ 0 then []
  else
    let result := truncWalk bullets maxChars 0
    if result.length < 3 ∧ bullets ≠ [] then bullets.take 3 else result

/-!
### Spec-side description of the truncation walk

Translated from the specification sentence: walk bullets in order,
accumulating length including a one-character line-break cost per bullet;
stop including further bullets once the next one would exceed the budget;
if the remaining budget exceeds 30 characters include a shortened version
of the next bullet ending in an ellipsis; if fewer than 3 bullets survive,
keep the first 3 original bullets instead.
-/

/-- Total cost of a bullet list: each bullet counts its length plus a
one-character line-break cost. -/
def bulletCost : List Str → Int
  | [] => 0
  | b :: r => ((b.length : Int) + 1) + bulletCost r

/-- Number of whole bullets kept: the longest prefix whose accumulated cost
stays within the budget (the walk stops before the first bullet that would
exceed it). -/
def specKeep : List Str → Int → Nat
  | [], _ => 0
  | b :: rest, budget =>
    if ((b.length : Int) + 1) ≤ budget then specKeep rest (budget - ((b.length : Int) + 1)) + 1
    else 0

/-- The truncation procedure as the specification describes it. -/
def specTruncate (bullets : List Str) (budget : Int) : List Str :=
  let k := specKeep bullets budget
  let kept := bullets.take k
  let rem := budget - bulletCost kept
  let withShort := kept ++
    (match bullets.drop k with
     | [] => []
     | b :: _ => if 30 < rem then [shortenBullet b rem] else [])
  if withShort.length < 3 then bullets.take 3 else withShort

/-!
### The decoded response envelope and `_extract_content_simple` (lines 100-149)

`PyVal` models the JSON-decoded Python value: strings, dictionaries
(ordered key/value entries, keys unique), lists, and anything else
(numbers, booleans, `None`).  `PyEntries`/`PyItems` are ordinary lists,
spelled as mutual inductives so that structural recursion and induction
over the nesting are available.
-/
mutual
inductive PyVal : Type where
| pystr (s : Str)
| pydict (es : PyEntries)
| pylist (xs : PyItems)
| pyother
deriving Repr

inductive PyEntries : Type where
| enil
| econs (key : Str) (v : PyVal) (rest : PyEntries)
deriving Repr

inductive PyItems : Type where
| inil
| icons (v : PyVal) (rest : PyItems)
deriving Repr
end

/-- Python `obj[key]` preceded by `key in obj`: the value of the first
entry with the given key (dictionary keys are unique). -/
def findKey : PyEntries → Str → Option PyVal
  | .enil, _ => none
  | .econs k v rest, key => if k = key then some v else findKey rest key

/-- `"content" in obj and isinstance(obj["content"], str)` followed by
`obj["content"]` (lines 127-128). -/
def lookupContentKey (es : PyEntries) : Option Str :=
  match findKey es ("content".data) with
  | some (.pystr s) => some s
  | _ => none

/-!
The nested function `find_content` (lines 122-138).  Its `return` values
are Python strings or `None`; a caller keeps looping unless the returned
value is truthy, i.e. a *non-empty* string (`if result: return result`),
so a `some []` produced by a `"content"` key bound to the empty string is
skipped by the enclosing loop.
-/
mutual
def findContent : PyVal → Option Str
  | .pystr s => if 50 < s.length then some s else none
  | .pydict es =>
    (match lookupContentKey es with
     | some v => some v
     | none => findContentVals es)
  | .pylist xs => findContentItems xs
  | .pyother => none

def findContentVals : PyEntries → Option Str
  | .enil => none
  | .econs _ v rest =>
    (match findContent v with
     | some r => if r.isEmpty then findContentVals rest else some r
     | none => findContentVals rest)

def findContentItems : PyItems → Option Str
  | .inil => none
  | .icons v rest =>
    (match findContent v with
     | some r => if r.isEmpty then findContentItems rest else some r
     | none => findContentItems rest)
end

/-!
Claim-side rendering of the recursive search, translated from the
specification sentence alone: mappings are searched depth-first, a mapping
carrying a string-valued "content" key has that value returned verbatim, a
bare string longer than 50 characters is accepted, sequences element-wise
in order, and the *first match* found by the traversal wins — with no
concept of skipping an empty match.
-/
mutual
def findContentClaimed : PyVal → Option Str
  | .pystr s => if 50 < s.length then some s else none
  | .pydict es =>
    (match lookupContentKey es with
     | some v => some v
     | none => findContentClaimedVals es)
  | .pylist xs => findContentClaimedItems xs
  | .pyother => none

def findContentClaimedVals : PyEntries → Option Str
  | .enil => none
  | .econs _ v rest =>
    (match findContentClaimed v with
     | some r => some r
     | none => findContentClaimedVals rest)

def findContentClaimedItems : PyItems → Option Str
  | .inil => none
  | .icons v rest =>
    (match findContentClaimed v with
     | some r => some r
     | none => findContentClaimedItems rest)
end

/-!
The match stream of the depth-first traversal: every candidate the code
can return, in traversal order.  A mapping with a string-valued "content"
key contributes exactly that value (its subtree is not searched further); a
bare string longer than 50 characters contributes itself; other mappings
and sequences contribute the concatenated streams of their children.
-/
mutual
def dfsMatches : PyVal → List Str
  | .pystr s => if 50 < s.length then [s] else []
  | .pydict es =>
    (match lookupContentKey es with
     | some v => [v]
     | none => dfsMatchesVals es)
  | .pylist xs => dfsMatchesItems xs
  | .pyother => []

def dfsMatchesVals : PyEntries → List Str
  | .enil => []
  | .econs _ v rest => dfsMatches v ++ dfsMatchesVals rest

def dfsMatchesItems : PyItems → List Str
  | .inil => []
  | .icons v rest => dfsMatches v ++ dfsMatchesItems rest
end

/-- The preferred-shape check of `_extract_content_simple` (lines 105-119):
`data["choices"][0]["message"]["content"]`, returned stripped when it is a
string that is non-blank after stripping; on any failed check fall through
(`none`) to the recursive search. -/
def preferredExtract (data : PyVal) : Option Str :=
  match data with
  | .pydict es =>
    (match findKey es ("choices".data) with
     | some (.pylist (.icons first _)) =>
       (match first with
        | .pydict fes =>
          (match findKey fes ("message".data) with
           | some (.pydict mes) =>
             (match findKey mes ("content".data) with
              | some (.pystr content) =>
                if (pyStrip content).isEmpty then none else some (pyStrip content)
              | _ => none)
           | _ => none)
        | _ => none)
     | _ => none)
  | _ => none

/-- `_extract_content_simple(data)` (lines 100-149): preferred shape first,
then the recursive search (whose non-empty result is stripped), else the
empty string.  Nothing in the body raises, so the `except` branch is
dead. -/
def extractContentSimple (data : PyVal) : Str :=
  match preferredExtract data with
  | some c => c
  | none =>
    (match findContent data with
     | some r => if r.isEmpty then [] else pyStrip r
     | none => [])

/-- A nested envelope whose first depth-first match is an empty-string
"content" value and whose second match is a 51-character bare string:
`{"a": {"content": ""}, "b": "zz…z"}`. -/
def emptyContentEnvelope : PyVal :=
  .pydict (.econs ("a".data) (.pydict (.econs ("content".data) (.pystr []) .enil))
    (.econs ("b".data) (.pystr (List.replicate 51 'z')) .enil))

/-- The well-formed envelope of the preferred shape,
`{"choices":[{"message":{"content":X}}]}`. -/
def mkEnvelope (x : Str) : PyVal :=
  .pydict (.econs ("choices".data)
    (.pylist (.icons (.pydict (.econs ("message".data)
      (.pydict (.econs ("content".data) (.pystr x) .enil)) .enil)) .inil)) .enil)

/-!
### MD5 (RFC 1321) over `Nat`, and UTF-8 encoding

`_generate_unique_crypto_image` hashes `content.encode()` with
`hashlib.md5` and keeps the first 8 characters of the hex digest.  MD5 is
implemented here on 32-bit words represented as `Nat` values below `2^32`,
with explicit `% 2^32` reductions.
-/

/-- `str.encode()`: UTF-8 bytes of the codepoint sequence. -/
def utf8Bytes (s : Str) : List Nat :=
  s.flatMap (fun c =>
    let n := c.toNat
    if n < 128 then [n]
    else if n < 2048 then [192 + n / 64, 128 + n % 64]
    else if n < 65536 then [224 + n / 4096, 128 + n / 64 % 64, 128 + n % 64]
    else [240 + n / 262144, 128 + n / 4096 % 64, 128 + n / 64 % 64, 128 + n % 64])

/-- 2^32. -/
def u32mod : Nat := 4294967296

/-- Reduce modulo 2^32. -/
def m32 (x : Nat) : Nat := x % u32mod

/-- 32-bit left rotation (argument below 2^32, shift in 1..31). -/
def rotl32 (x s : Nat) : Nat := (x * 2 ^ s) % u32mod + x / 2 ^ (32 - s)

/-- 32-bit complement (argument below 2^32). -/
def not32 (x : Nat) : Nat := u32mod - 1 - x

/-- MD5 auxiliary function F. -/
def md5F (b c d : Nat) : Nat := Nat.lor (Nat.land b c) (Nat.land (not32 b) d)

/-- MD5 auxiliary function G. -/
def md5G (b c d : Nat) : Nat := Nat.lor (Nat.land d b) (Nat.land (not32 d) c)

/-- MD5 auxiliary function H. -/
def md5H (b c d : Nat) : Nat := Nat.xor b (Nat.xor c d)

/-- MD5 auxiliary function I. -/
def md5I (b c d : Nat) : Nat := Nat.xor c (Nat.lor b (not32 d))

/-- The 64 sine-derived constants of RFC 1321. -/
def md5K : List Nat :=
  [0xd76aa478, 0xe8c7b756, 0x242070db, 0xc1bdceee,
   0xf57c0faf, 0x4787c62a, 0xa8304613, 0xfd469501,
   0x698098d8, 0x8b44f7af, 0xffff5bb1, 0x895cd7be,
   0x6b901122, 0xfd987193, 0xa679438e, 0x49b40821,
   0xf61e2562, 0xc040b340, 0x265e5a51, 0xe9b6c7aa,
   0xd62f105d, 0x02441453, 0xd8a1e681, 0xe7d3fbc8,
   0x21e1cde6, 0xc33707d6, 0xf4d50d87, 0x455a14ed,
   0xa9e3e905, 0xfcefa3f8, 0x676f02d9, 0x8d2a4c8a,
   0xfffa3942, 0x8771f681, 0x6d9d6122, 0xfde5380c,
   0xa4beea44, 0x4bdecfa9, 0xf6bb4b60, 0xbebfbc70,
   0x289b7ec6, 0xeaa127fa, 0xd4ef3085, 0x04881d05,
   0xd9d4d039, 0xe6db99e5, 0x1fa27cf8, 0xc4ac5665,
   0xf4292244, 0x432aff97, 0xab9423a7, 0xfc93a039,
   0x655b59c3, 0x8f0ccc92, 0xffeff47d, 0x85845dd1,
   0x6fa87e4f, 0xfe2ce6e0, 0xa3014314, 0x4e0811a1,
   0xf7537e82, 0xbd3af235, 0x2ad7d2bb, 0xeb86d391]

/-- The per-round rotation amounts. -/
def md5S : List Nat :=
  [7, 12, 17, 22, 7, 12, 17, 22, 7, 12, 17, 22, 7, 12, 17, 22,
   5, 9, 14, 20, 5, 9, 14, 20, 5, 9, 14, 20, 5, 9, 14, 20,
   4, 11, 16, 23, 4, 11, 16, 23, 4, 11, 16, 23, 4, 11, 16, 23,
   6, 10, 15, 21, 6, 10, 15, 21, 6, 10, 15, 21, 6, 10, 15, 21]

/-- Message-word index schedule. -/
def md5Idx (i : Nat) : Nat :=
  if i < 16 then i
  else if i < 32 then (5 * i + 1) % 16
  else if i < 48 then (3 * i + 5) % 16
  else (7 * i) % 16

/-- One of the 64 operations of a block. -/
def md5Step (block : List Nat) (st : Nat × Nat × Nat × Nat) (i : Nat) :
    Nat × Nat × Nat × Nat :=
  let (a, b, c, d) := st
  let f := if i < 16 then md5F b c d
    else if i < 32 then md5G b c d
    else if i < 48 then md5H b c d
    else md5I b c d
  let newB := m32 (b + rotl32 (m32 (a + f + block.getD (md5Idx i) 0 + md5K.getD i 0))
    (md5S.getD i 0))
  (d, newB, b, c)

/-- Process one 64-byte block (given as 16 little-endian words). -/
def md5Block (st : Nat × Nat × Nat × Nat) (block : List Nat) : Nat × Nat × Nat × Nat :=
  let (a0, b0, c0, d0) := st
  let (a, b, c, d) := (List.range 64).foldl (md5Step block) st
  (m32 (a0 + a), m32 (b0 + b), m32 (c0 + c), m32 (d0 + d))

/-- `k` little-endian bytes of `n`. -/
def leBytes (n k : Nat) : List Nat := (List.range k).map (fun i => n / 256 ^ i % 256)

/-- Group a padded byte sequence into 32-bit little-endian words. -/
def toWords : List Nat → List Nat
  | b0 :: b1 :: b2 :: b3 :: rest =>
    (b0 + 256 * b1 + 65536 * b2 + 16777216 * b3) :: toWords rest
  | _ => []

/-- RFC 1321 padding: `0x80`, zeros to 56 mod 64, 8-byte little-endian bit
length. -/
def md5Pad (msg : List Nat) : List Nat :=
  msg ++ 128 :: List.replicate ((119 - msg.length % 64) % 64) 0
    ++ leBytes (8 * msg.length % 2 ^ 64) 8

/-- Fold the 64-byte blocks of a padded message, with an explicit fuel
(each step consumes 64 bytes, so the byte count is enough fuel). -/
def md5ProcessAux : Nat → Nat × Nat × Nat × Nat → List Nat → Nat × Nat × Nat × Nat
  | _, st, [] => st
  | 0, st, _ :: _ => st
  | fuel + 1, st, b :: rest =>
    md5ProcessAux fuel (md5Block st (toWords ((b :: rest).take 64))) ((b :: rest).drop 64)

/-- Fold the 64-byte blocks of a padded message. -/
def md5Process (st : Nat × Nat × Nat × Nat) (l : List Nat) : Nat × Nat × Nat × Nat :=
  md5ProcessAux l.length st l

/-- Hexadecimal digit (lowercase), as produced by `hexdigest()`. -/
def hexDigitChar (n : Nat) : Char :=
  if n < 10 then Char.ofNat (48 + n) else Char.ofNat (87 + n)

/-- Two hex characters of one byte. -/
def byteHex (b : Nat) : Str := [hexDigitChar (b / 16), hexDigitChar (b % 16)]

/-- `hashlib.md5(bytes).hexdigest()`. -/
def md5Hexdigest (msg : List Nat) : Str :=
  let st := md5Process (0x67452301, 0xefcdab89, 0x98badcfe, 0x10325476) (md5Pad msg)
  ((leBytes st.1 4 ++ leBytes st.2.1 4 ++ leBytes st.2.2.1 4 ++ leBytes st.2.2.2 4).flatMap
    byteHex)

/-- `int(h, 16)` for a lowercase hex string. -/
def hexToNat (s : Str) : Nat :=
  s.foldl (fun acc c => 16 * acc + (if c.toNat < 97 then c.toNat - 48 else c.toNat - 87)) 0

/-!
### Image selection: `_generate_unique_crypto_image` (lines 344-376)
-/

/-- Line 347: `hashlib.md5(content.encode()).hexdigest()[:8]`. -/
def contentHash (content : Str) : Str := (md5Hexdigest (utf8Bytes content)).take 8

/-- Lines 372 and 376: the always-available fallback URL (it is also entry
4 of the pool). -/
def fallbackImageUrl : Str :=
  "https://images.unsplash.com/photo-1640340434855-6084b1f4901c?w=1200&h=800&fit=crop".data

/-- The `crypto_images` pool (lines 349-357); entries 0 and 3 embed the
content hash. -/
def cryptoImagePool (h : Str) : List Str :=
  ["https://source.unsplash.com/1200x800/?cryptocurrency,trading,".data ++ h,
   "https://source.unsplash.com/1200x800/?bitcoin,market,analysis".data,
   "https://source.unsplash.com/1200x800/?blockchain,finance,charts".data,
   "https://picsum.photos/1200/800?random=".data ++ h,
   fallbackImageUrl,
   "https://images.unsplash.com/photo-1559757175-0eb30cd8c063?w=1200&h=800&fit=crop".data,
   "https://images.unsplash.com/photo-1616499370260-485b3e5ed653?w=1200&h=800&fit=crop".data]

/-- `_generate_unique_crypto_image(content)` (lines 344-376).  `probeOk` is
the outcome of the HEAD liveness probe on the selected URL: `true` iff it
returned status 200 without raising; on any other outcome the fixed
fallback URL is returned.  Hashing and selection themselves cannot raise,
so the outer `except` branch is dead. -/
def generateUniqueCryptoImage (content : Str) (probeOk : Bool) : Str :=
  let h := contentHash content
  let imgs := cryptoImagePool h
  let selected := imgs.getD (hexToNat h % imgs.length) fallbackImageUrl
  if probeOk then selected else fallbackImageUrl

/-!
### Fallback content and the public operation (lines 25-98, 378-408)
-/

/-- The `fallback_bullets` list of `_create_refined_fallback_content`
(lines 380-387). -/
def fallbackBullets : List Str :=
  ["• Bitcoin trading activity continues with notable institutional transactions reported".data,
   "• Ethereum network updates and Layer 2 scaling solutions see increased adoption".data,
   "• Major altcoins display varied performance across different market segments".data,
   "• Global economic indicators and central bank policies influence crypto market sentiment".data,
   "• Regulatory developments in key jurisdictions impact trading volumes and market access".data,
   "• Upcoming industry events and protocol upgrades scheduled for near-term implementation".data]

/-- The assembled fallback text of lines 389-399, before the clamp: header
line, date line, blank line, the six bullets joined by line breaks, blank
line, hashtag line. -/
def fallbackRawText (date : Str) : Str :=
  "📈 **Crypto Market Update**\n".data
    ++ "📅 *".data ++ date ++ "*\n\n".data
    ++ joinNewline fallbackBullets ++ "\n\n".data
    ++ "*#CryptoNews #MarketOverview*".data

/-- The `text` field of `_create_refined_fallback_content` after the
800-character clamp of lines 401-402. -/
def fallbackContentText (date : Str) : Str := clamp800 (fallbackRawText date)

/-- The ComposedContent record returned to the caller. -/
structure ComposedContent : Type where
  text : Str
  image_url : Str
  char_count : Nat
deriving Repr

/-- `_create_refined_fallback_content(date)` (lines 378-408). -/
def createRefinedFallbackContent (date : Str) (probeOk : Bool) : ComposedContent :=
  let t := fallbackContentText date
  { text := t, image_url := generateUniqueCryptoImage t probeOk, char_count := t.length }

/-- Outcome of the completion request `requests.post(...)` together with
body parsing: the call raised; or it returned with a status code and a
body that either fails `response.json()` (`none`) or decodes to a
`PyVal`. -/
inductive ApiOutcome : Type where
| raised
| response (status : Nat) (body : Option PyVal)

/-- `get_crypto_news_content()` (lines 25-98).  `date` is the formatted
date computed in the `try` block, `dateExc` the one recomputed in the
`except` branch (line 97), `probeOk` the image-probe outcome.  Every
branch returns a record; no exception escapes: the request and JSON
failures are the explicit `ApiOutcome` cases, and all helpers are total
(each catches its own exceptions). -/
def getCryptoNewsContent (o : ApiOutcome) (date dateExc : Str) (probeOk : Bool) :
    ComposedContent :=
  match o with
  | .raised => createRefinedFallbackContent dateExc probeOk
  | .response status body =>
    if status ≠ 200 then createRefinedFallbackContent date probeOk
    else
      match body with
      | none => createRefinedFallbackContent date probeOk
      | some data =>
        let content := extractContentSimple data
        if content.isEmpty then createRefinedFallbackContent date probeOk
        else
          let formatted := formatContentRefined content date
          { text := formatted,
            image_url := generateUniqueCryptoImage formatted probeOk,
            char_count := formatted.length }

/-!
## Theorems

Helper lemmas first, then one theorem per claim (with witnesses and
counterexamples where applicable).
-/

/-- Sanity check of the MD5 embedding against the RFC 1321 test suite. -/
theorem md5Hexdigest_empty_vector :
    md5Hexdigest (utf8Bytes []) = "d41d8cd98f00b204e9800998ecf8427e".data := by decide

/-- Second RFC 1321 test vector. -/
theorem md5Hexdigest_abc_vector :
    md5Hexdigest (utf8Bytes ("abc".data)) = "900150983cd24fb0d6963f7d28e17f72".data := by
  decide

/-- The pattern of line 159 is rejected by the regex compiler. -/
theorem boldPattern_rejected : reValidPattern boldPattern = false := by decide

/-- Hence the `try` block of `_format_content_refined` always raises. -/
theorem formatTryBody_eq_none (content : Str) : formatTryBody content = none := by
  unfold formatTryBody
  rw [boldPattern_rejected]
  simp

/-- `_format_content_refined` always returns the clamped `except` fallback. -/
theorem formatContentRefined_eq (content date : Str) :
    formatContentRefined content date = clamp800 (formatExceptRaw date) := by
  unfold formatContentRefined
  rw [formatTryBody_eq_none]

/-- The clamp yields at most 800 characters. -/
theorem clamp800_length_le (s : Str) : (clamp800 s).length ≤ 800 := by
  unfold clamp800
  split
  · simp only [List.length_append, List.length_take, List.length_cons, List.length_nil]
    omega
  · omega

/-- When the input exceeds 800 characters the clamp is the 799-prefix plus
one ellipsis character. -/
theorem clamp800_of_gt (s : Str) (h : 800 < s.length) :
    clamp800 s = s.take 799 ++ "…".data := by
  unfold clamp800
  rw [if_pos h]

/-- The formatting stage never exceeds 800 characters. -/
theorem formatContentRefined_length_le (content date : Str) :
    (formatContentRefined content date).length ≤ 800 := by
  rw [formatContentRefined_eq]
  exact clamp800_length_le _

/-- The fallback content text never exceeds 800 characters. -/
theorem fallbackContentText_length_le (date : Str) :
    (fallbackContentText date).length ≤ 800 :=
  clamp800_length_le _

/-- C1. For every input content string and every date string, the text
produced by the formatting stage, and likewise the text of the fallback
content, has length at most 800 codepoints; and whenever the assembled
string exceeds 800 characters, the result is the hard truncation to 799
characters with a single ellipsis character appended. -/
theorem claim1_final_text_within_800 (content date : Str) :
    (formatContentRefined content date).length ≤ 800
    ∧ (fallbackContentText date).length ≤ 800
    ∧ (800 < (formatExceptRaw date).length →
        formatContentRefined content date = (formatExceptRaw date).take 799 ++ "…".data)
    ∧ (800 < (fallbackRawText date).length →
        fallbackContentText date = (fallbackRawText date).take 799 ++ "…".data) := by
  refine ⟨formatContentRefined_length_le content date, fallbackContentText_length_le date,
    fun h => ?_, fun h => ?_⟩
  · rw [formatContentRefined_eq]
    exact clamp800_of_gt _ h
  · exact clamp800_of_gt _ h

/-- Witness for C1 at a 700-character date, which drives both assembled
strings above 800 characters. -/
theorem claim1_final_text_within_800_witness :
    (800 < (formatExceptRaw (List.replicate 700 'x')).length
      ∧ formatContentRefined ("abc".data) (List.replicate 700 'x')
          = (formatExceptRaw (List.replicate 700 'x')).take 799 ++ "…".data)
    ∧ (800 < (fallbackRawText (List.replicate 700 'x')).length
      ∧ fallbackContentText (List.replicate 700 'x')
          = (fallbackRawText (List.replicate 700 'x')).take 799 ++ "…".data) :=
  ⟨⟨by decide, (claim1_final_text_within_800 ("abc".data) (List.replicate 700 'x')).2.2.1
      (by decide)⟩,
   ⟨by decide, (claim1_final_text_within_800 ("abc".data) (List.replicate 700 'x')).2.2.2
      (by decide)⟩⟩

/-- The fallback ComposedContent record is well-formed. -/
theorem createRefinedFallbackContent_ok (date : Str) (probeOk : Bool) :
    (createRefinedFallbackContent date probeOk).char_count
        = (createRefinedFallbackContent date probeOk).text.length
    ∧ (createRefinedFallbackContent date probeOk).text.length ≤ 800 :=
  ⟨rfl, fallbackContentText_length_le date⟩

/-- C2. For every outcome of the request, extraction and formatting stages
(raised exception, non-200 status, unparseable body, empty extraction, or
success), the public operation returns a ComposedContent record whose
char_count equals the length of its text, and that text never exceeds 800
characters; no branch escapes with an exception (the function is total over
all modelled outcomes). -/
theorem claim2_composed_content_record (o : ApiOutcome) (date dateExc : Str)
    (probeOk : Bool) :
    (getCryptoNewsContent o date dateExc probeOk).char_count
        = (getCryptoNewsContent o date dateExc probeOk).text.length
    ∧ (getCryptoNewsContent o date dateExc probeOk).text.length ≤ 800 := by
  cases o with
  | raised => simpa [getCryptoNewsContent] using createRefinedFallbackContent_ok dateExc probeOk
  | response status body =>
    by_cases hs : status = 200
    · cases body with
      | none =>
        simpa [getCryptoNewsContent, hs] using createRefinedFallbackContent_ok date probeOk
      | some data =>
        by_cases hc : (extractContentSimple data).isEmpty
        · simpa [getCryptoNewsContent, hs, hc] using createRefinedFallbackContent_ok date probeOk
        · have hrec : getCryptoNewsContent (.response status (some data)) date dateExc probeOk
              = { text := formatContentRefined (extractContentSimple data) date,
                  image_url := generateUniqueCryptoImage
                    (formatContentRefined (extractContentSimple data) date) probeOk,
                  char_count := (formatContentRefined (extractContentSimple data) date).length } := by
            simp [getCryptoNewsContent, hs, hc]
          rw [hrec]
          exact ⟨rfl, formatContentRefined_length_le (extractContentSimple data) date⟩
    · simpa [getCryptoNewsContent, hs] using createRefinedFallbackContent_ok date probeOk

/-- C4. The bulletization step always yields between 4 and 6 bullets: fewer
than 4 raw bullets are discarded for the fixed 6-entry comprehensive set,
and more than 6 are cut to the first 6. -/
theorem claim4_bullet_count_bounds (content : Str) :
    (4 ≤ (convertToDetailedBullets content).length
      ∧ (convertToDetailedBullets content).length ≤ 6)
    ∧ ((rawBullets content).length < 4 →
        convertToDetailedBullets content = comprehensiveBullets)
    ∧ (6 < (rawBullets content).length →
        convertToDetailedBullets content = (rawBullets content).take 6) := by
  by_cases h4 : (rawBullets content).length < 4
  · have hc : convertToDetailedBullets content = comprehensiveBullets := by
      simp only [convertToDetailedBullets]
      rw [if_pos h4]
    refine ⟨⟨?_, ?_⟩, fun _ => hc, fun h6 => absurd h6 (by omega)⟩
    · rw [hc]; decide
    · rw [hc]; decide
  · by_cases h6 : 6 < (rawBullets content).length
    · have hc : convertToDetailedBullets content = (rawBullets content).take 6 := by
        simp only [convertToDetailedBullets]
        rw [if_neg h4, if_pos h6]
      refine ⟨⟨?_, ?_⟩, fun h => absurd h h4, fun _ => hc⟩
      · rw [hc, List.length_take]; omega
      · rw [hc, List.length_take]; omega
    · have hc : convertToDetailedBullets content = rawBullets content := by
        simp only [convertToDetailedBullets]
        rw [if_neg h4, if_neg h6]
      refine ⟨⟨?_, ?_⟩, fun h => absurd h h4, fun h => absurd h h6⟩
      · rw [hc]; omega
      · rw [hc]; omega

/-- Witness for C4: the empty body yields no raw bullets, so the
comprehensive set is substituted. -/
theorem claim4_bullet_count_bounds_witness :
    ((rawBullets []).length < 4) ∧ convertToDetailedBullets [] = comprehensiveBullets :=
  ⟨by decide, (claim4_bullet_count_bounds []).2.1 (by decide)⟩

/-- C5 (code defect). The cleanup step of `_format_content_refined` never
completes on any input: its second substitution uses `boldPattern`, which
the regex compiler rejects, so the `try` block raises there and the
formatter falls back to its static `except` string. -/
theorem claim5_cleanup_always_raises (content : Str) :
    formatTryBody content = none ∧ reValidPattern boldPattern = false :=
  ⟨formatTryBody_eq_none content, boldPattern_rejected⟩

/-- C9. Image selection is a pure function of the MD5-derived hash of the
text: with a confirming probe, the selected URL is the pool entry at the
index given by the first 8 hex digits of the digest taken modulo the pool
size 7, hence two selections over the same text always agree. -/
theorem claim9_image_selection_deterministic (t₁ t₂ : Str) (h : t₁ = t₂) :
    generateUniqueCryptoImage t₁ true = generateUniqueCryptoImage t₂ true
    ∧ generateUniqueCryptoImage t₁ true
        = (cryptoImagePool (contentHash t₁)).getD
            (hexToNat (contentHash t₁) % 7) fallbackImageUrl
    ∧ hexToNat (contentHash t₁) % 7 < 7 := by
  subst h
  exact ⟨rfl, rfl, Nat.mod_lt _ (by decide)⟩

/-- Witness for C9 at the text "test". -/
theorem claim9_image_selection_deterministic_witness :
    ("test".data = "test".data)
    ∧ generateUniqueCryptoImage ("test".data) true
        = (cryptoImagePool (contentHash ("test".data))).getD
            (hexToNat (contentHash ("test".data)) % 7) fallbackImageUrl :=
  ⟨rfl, (claim9_image_selection_deterministic ("test".data) ("test".data) rfl).2.1⟩

/-- C10. With a zero or negative budget the truncation helper returns the
empty list immediately; the keep-first-3 rescue is skipped. -/
theorem claim10_zero_budget_returns_empty (bullets : List Str) (maxChars : Int)
    (_hb : bullets ≠ []) (h : maxChars ≤ 0) :
    truncateBulletsRefined bullets maxChars = [] := by
  unfold truncateBulletsRefined
  rw [if_pos h]

/-- Witness for C10 at a one-bullet list and budget 0. -/
theorem claim10_zero_budget_returns_empty_witness :
    (([("• x".data)] : List Str) ≠ [] ∧ (0 : Int) ≤ 0)
    ∧ truncateBulletsRefined [("• x".data)] 0 = [] :=
  ⟨⟨by decide, by decide⟩,
   claim10_zero_budget_returns_empty [("• x".data)] 0 (by decide) (by decide)⟩

/-- The enhancement loop never substitutes a bullet of 50 characters or
more. -/
theorem enhanceLoop_ge_50 (table : List (Str × Str)) (low bullet : Str)
    (h : 50 ≤ bullet.length) : enhanceLoop table low bullet = bullet := by
  induction table with
  | nil => rfl
  | cons p rest ih =>
    obtain ⟨key, enh⟩ := p
    unfold enhanceLoop
    rw [if_neg]
    · exact ih
    · rintro ⟨-, hlt⟩
      omega

/-- Below 50 characters the loop returns the canned sentence of the first
matching keyword, if any. -/
theorem enhanceLoop_lt_50 (table : List (Str × Str)) (low bullet : Str)
    (h : bullet.length < 50) :
    enhanceLoop table low bullet = (firstEnhancement table low).getD bullet := by
  induction table with
  | nil => rfl
  | cons p rest ih =>
    obtain ⟨key, enh⟩ := p
    unfold enhanceLoop firstEnhancement
    by_cases hm : containsSub low key = true
    · rw [if_pos ⟨hm, h⟩, if_pos hm]
      rfl
    · rw [if_neg (fun hc => hm hc.1), if_neg hm]
      exact ih

/-- C8 (amended). The keyword substitution of `_enhance_short_bullet`
applies exactly to candidates shorter than 50 characters: such a bullet is
replaced by the canned sentence of the first keyword of the fixed mapping
found in its lowercased text (and kept when no keyword matches), while a
bullet of 50 characters or more — in particular one of 60 or more — is
always returned unchanged. -/
theorem claim8_enhancement_below_50 (bullet : Str) :
    (50 ≤ bullet.length → enhanceShortBullet bullet = bullet)
    ∧ (bullet.length < 50 →
        enhanceShortBullet bullet
          = (firstEnhancement enhancementTable (toLowerStr bullet)).getD bullet) :=
  ⟨fun h => enhanceLoop_ge_50 _ _ _ h, fun h => enhanceLoop_lt_50 _ _ _ h⟩

/-- Witness for C8: a 12-character candidate containing "bitcoin" is
substituted. -/
theorem claim8_enhancement_below_50_witness :
    (("bitcoin dips".data).length < 50)
    ∧ enhanceShortBullet ("bitcoin dips".data)
        = (firstEnhancement enhancementTable (toLowerStr ("bitcoin dips".data))).getD
            ("bitcoin dips".data)
    ∧ enhanceShortBullet ("bitcoin dips".data)
        = "Bitcoin continues its market leadership with institutional interest".data :=
  ⟨by decide, (claim8_enhancement_below_50 ("bitcoin dips".data)).2 (by decide), by decide⟩

/-- Counterexample to C8 as stated: a 51-character sentence unit containing
the keyword "bitcoin" is under 60 characters, yet the bulletization step
leaves it unchanged instead of substituting the canned sentence, because
the substitution also requires the candidate to be under 50 characters. -/
theorem claim8_counterexample :
    (("bitcoin holds gains while markets digest macro data".data).length < 60)
    ∧ containsSub (toLowerStr ("bitcoin holds gains while markets digest macro data".data))
        ("bitcoin".data) = true
    ∧ enhanceShortBullet ("bitcoin holds gains while markets digest macro data".data)
        = "bitcoin holds gains while markets digest macro data".data
    ∧ "bitcoin holds gains while markets digest macro data".data
        ≠ "Bitcoin continues its market leadership with institutional interest".data := by
  refine ⟨by decide, by decide, by decide, by decide⟩

/-- C7. For every string that is non-blank after stripping, extraction
applied to the well-formed envelope returns exactly the stripped string
via the preferred path. -/
theorem claim7_preferred_extraction (x : Str) (h : ¬(pyStrip x).isEmpty = true) :
    extractContentSimple (mkEnvelope x) = pyStrip x := by
  unfold extractContentSimple mkEnvelope preferredExtract
  simp only [findKey, if_pos, if_neg, lookupContentKey]
  rw [if_neg h]

/-- Witness for C7 at the content " hello ". -/
theorem claim7_preferred_extraction_witness :
    (¬(pyStrip (" hello ".data)).isEmpty = true)
    ∧ extractContentSimple (mkEnvelope (" hello ".data)) = pyStrip (" hello ".data)
    ∧ pyStrip (" hello ".data) = "hello".data :=
  ⟨by decide, claim7_preferred_extraction (" hello ".data) (by decide), by decide⟩

/-- The source loop of `_truncate_bullets_refined` equals the specification
walk: it keeps the longest prefix whose accumulated cost (length plus one
per bullet) fits the remaining budget, then appends an ellipsis-shortened
version of the next bullet exactly when more than 30 characters of budget
remain. -/
theorem truncWalk_spec (bullets : List Str) : ∀ maxChars currentLength : Int,
    truncWalk bullets maxChars currentLength =
      bullets.take (specKeep bullets (maxChars - currentLength)) ++
      (match bullets.drop (specKeep bullets (maxChars - currentLength)) with
       | [] => []
       | b :: _ =>
         if 30 < (maxChars - currentLength)
             - bulletCost (bullets.take (specKeep bullets (maxChars - currentLength)))
         then [shortenBullet b ((maxChars - currentLength)
             - bulletCost (bullets.take (specKeep bullets (maxChars - currentLength))))]
         else []) := by
  induction bullets with
  | nil => intro mc cl; simp [truncWalk, specKeep]
  | cons b rest ih =>
    intro mc cl
    by_cases hfit : cl + ((b.length : Int) + 1) ≤ mc
    · have hcond : ((b.length : Int) + 1) ≤ mc - cl := by omega
      have hk : specKeep (b :: rest) (mc - cl)
          = specKeep rest ((mc - cl) - ((b.length : Int) + 1)) + 1 := by
        simp only [specKeep]
        rw [if_pos hcond]
      have hw : truncWalk (b :: rest) mc cl
          = b :: truncWalk rest mc (cl + ((b.length : Int) + 1)) := by
        simp only [truncWalk]
        rw [if_pos hfit]
      rw [hw, ih mc (cl + ((b.length : Int) + 1)), hk]
      have harith : mc - (cl + ((b.length : Int) + 1)) = (mc - cl) - ((b.length : Int) + 1) := by
        ring
      rw [harith]
      simp only [List.take_succ_cons, List.drop_succ_cons, List.cons_append, bulletCost]
      have h2 : ((mc - cl) - ((b.length : Int) + 1))
            - bulletCost (rest.take (specKeep rest ((mc - cl) - ((b.length : Int) + 1))))
          = (mc - cl) - (((b.length : Int) + 1)
            + bulletCost (rest.take (specKeep rest ((mc - cl) - ((b.length : Int) + 1))))) := by
        ring
      rw [h2]
    · have hcond : ¬((b.length : Int) + 1) ≤ mc - cl := by omega
      have hk : specKeep (b :: rest) (mc - cl) = 0 := by
        simp only [specKeep]
        rw [if_neg hcond]
      have hw : truncWalk (b :: rest) mc cl
          = if 30 < mc - cl then [shortenBullet b (mc - cl)] else [] := by
        simp only [truncWalk]
        rw [if_neg hfit]
      rw [hw, hk]
      simp only [List.take_zero, List.drop_zero, List.nil_append, bulletCost]
      norm_num

/-- The kept prefix of the specification walk fits the budget. -/
theorem specKeep_cost_le (bullets : List Str) : ∀ budget : Int, 0 ≤ budget →
    bulletCost (bullets.take (specKeep bullets budget)) ≤ budget := by
  induction bullets with
  | nil =>
    intro budget h
    simpa [specKeep, bulletCost] using h
  | cons b rest ih =>
    intro budget h
    by_cases hc : ((b.length : Int) + 1) ≤ budget
    · have hk : specKeep (b :: rest) budget
          = specKeep rest (budget - ((b.length : Int) + 1)) + 1 := by
        simp only [specKeep]
        rw [if_pos hc]
      rw [hk, List.take_succ_cons]
      simp only [bulletCost]
      have := ih (budget - ((b.length : Int) + 1)) (by omega)
      omega
    · have hk : specKeep (b :: rest) budget = 0 := by
        simp only [specKeep]
        rw [if_neg hc]
      rw [hk, List.take_zero]
      simpa [bulletCost] using h

/-- The walk stops before the first bullet that would exceed the budget:
whenever a bullet is left out, adding it would overshoot. -/
theorem specKeep_minimal (bullets : List Str) : ∀ budget : Int,
    specKeep bullets budget < bullets.length →
    budget < bulletCost (bullets.take (specKeep bullets budget + 1)) := by
  induction bullets with
  | nil =>
    intro budget h
    simp [specKeep] at h
  | cons b rest ih =>
    intro budget h
    by_cases hc : ((b.length : Int) + 1) ≤ budget
    · have hk : specKeep (b :: rest) budget
          = specKeep rest (budget - ((b.length : Int) + 1)) + 1 := by
        simp only [specKeep]
        rw [if_pos hc]
      rw [hk] at h ⊢
      rw [List.take_succ_cons]
      simp only [bulletCost]
      have hlen : specKeep rest (budget - ((b.length : Int) + 1)) < rest.length := by
        simp only [List.length_cons] at h
        omega
      have := ih (budget - ((b.length : Int) + 1)) hlen
      omega
    · have hk : specKeep (b :: rest) budget = 0 := by
        simp only [specKeep]
        rw [if_neg hc]
      rw [hk]
      simp only [Nat.zero_add, List.take_succ_cons, List.take_zero, bulletCost]
      omega

/-- C3. For every bullet list and positive budget, `_truncate_bullets_refined`
computes exactly the truncation the specification describes: keep the
longest prefix whose accumulated length (with a one-character line-break
cost per bullet) fits the budget, append an ellipsis-shortened version of
the next bullet only when more than 30 characters of budget remain, and if
fewer than 3 bullets survive return the first 3 original bullets instead;
moreover the kept prefix fits the budget and stops before the first bullet
that would exceed it. -/
theorem claim3_truncation_walk (bullets : List Str) (maxChars : Int) (h : 0 < maxChars) :
    truncateBulletsRefined bullets maxChars = specTruncate bullets maxChars
    ∧ bulletCost (bullets.take (specKeep bullets maxChars)) ≤ maxChars
    ∧ (specKeep bullets maxChars < bullets.length →
        maxChars < bulletCost (bullets.take (specKeep bullets maxChars + 1))) := by
  refine ⟨?_, specKeep_cost_le bullets maxChars (by omega), specKeep_minimal bullets maxChars⟩
  simp only [truncateBulletsRefined, specTruncate]
  rw [if_neg (by omega : ¬maxChars ≤ 0)]
  have hw := truncWalk_spec bullets maxChars 0
  rw [show maxChars - 0 = maxChars from by ring] at hw
  rw [hw]
  by_cases hb : bullets = []
  · subst hb
    simp [specKeep, bulletCost]
  · simp [hb]

/-- Witness for C3: three 40-character bullets against a budget of 100 keep
two whole bullets (cost 82), the 18 remaining characters are not enough for
a shortened third, and the 2-element result triggers the first-3 rescue. -/
theorem claim3_truncation_walk_witness :
    ((0 : Int) < 100)
    ∧ truncateBulletsRefined
        [List.replicate 40 'a', List.replicate 40 'b', List.replicate 40 'c'] 100
      = specTruncate [List.replicate 40 'a', List.replicate 40 'b', List.replicate 40 'c'] 100
    ∧ truncateBulletsRefined
        [List.replicate 40 'a', List.replicate 40 'b', List.replicate 40 'c'] 100
      = [List.replicate 40 'a', List.replicate 40 'b', List.replicate 40 'c'] :=
  ⟨by decide,
   (claim3_truncation_walk [List.replicate 40 'a', List.replicate 40 'b', List.replicate 40 'c']
     100 (by decide)).1,
   by decide⟩

/-!
Characterization of the recursive search (C6): `findContent` returns the
first non-empty entry of the depth-first match stream; it returns an empty
string only when the root mapping itself carries an empty "content" value;
and it returns nothing exactly when every match in the stream is empty.
Proved by mutual structural induction over the envelope.
-/
mutual
theorem findContent_matches : ∀ d : PyVal,
    (∀ v, findContent d = some v → v ≠ [] →
        (dfsMatches d).find? (fun x => !x.isEmpty) = some v)
    ∧ (findContent d = none → (dfsMatches d).find? (fun x => !x.isEmpty) = none)
    ∧ (findContent d = some [] →
        ∃ es, d = PyVal.pydict es ∧ lookupContentKey es = some [])
  | .pystr s => by
    refine ⟨?_, ?_, ?_⟩
    · intro v hv hne
      by_cases h50 : 50 < s.length
      · rw [show findContent (.pystr s) = some s by simp [findContent, h50]] at hv
        injection hv with hv
        subst hv
        rw [show dfsMatches (.pystr s) = [s] by simp [dfsMatches, h50]]
        rw [List.find?_cons_of_pos _ (by simp [List.isEmpty_iff, hne])]
      · rw [show findContent (.pystr s) = none by simp [findContent, h50]] at hv
        cases hv
    · intro hn
      by_cases h50 : 50 < s.length
      · rw [show findContent (.pystr s) = some s by simp [findContent, h50]] at hn
        cases hn
      · rw [show dfsMatches (.pystr s) = [] by simp [dfsMatches, h50]]
        rfl
    · intro h0
      by_cases h50 : 50 < s.length
      · rw [show findContent (.pystr s) = some s by simp [findContent, h50]] at h0
        injection h0 with h0
        subst h0
        simp at h50
      · rw [show findContent (.pystr s) = none by simp [findContent, h50]] at h0
        cases h0
  | .pydict es => by
    cases hl : lookupContentKey es with
    | some v0 =>
      have hf : findContent (.pydict es) = some v0 := by simp [findContent, hl]
      have hd : dfsMatches (.pydict es) = [v0] := by simp [dfsMatches, hl]
      refine ⟨?_, ?_, ?_⟩
      · intro v hv hne
        rw [hf] at hv
        injection hv with hv
        subst hv
        rw [hd, List.find?_cons_of_pos _ (by simp [List.isEmpty_iff, hne])]
      · intro hn
        rw [hf] at hn
        cases hn
      · intro h0
        rw [hf] at h0
        injection h0 with h0
        exact ⟨es, rfl, by rw [hl, h0]⟩
    | none =>
      have hf : findContent (.pydict es) = findContentVals es := by simp [findContent, hl]
      have hd : dfsMatches (.pydict es) = dfsMatchesVals es := by simp [dfsMatches, hl]
      have ihv := findContentVals_matches es
      refine ⟨?_, ?_, ?_⟩
      · intro v hv _
        rw [hf] at hv
        rw [hd]
        exact (ihv.1 v hv).2
      · intro hn
        rw [hf] at hn
        rw [hd]
        exact ihv.2 hn
      · intro h0
        rw [hf] at h0
        exact absurd rfl (ihv.1 [] h0).1
  | .pylist xs => by
    have hf : findContent (.pylist xs) = findContentItems xs := by simp [findContent]
    have hd : dfsMatches (.pylist xs) = dfsMatchesItems xs := by simp [dfsMatches]
    have ihx := findContentItems_matches xs
    refine ⟨?_, ?_, ?_⟩
    · intro v hv _
      rw [hf] at hv
      rw [hd]
      exact (ihx.1 v hv).2
    · intro hn
      rw [hf] at hn
      rw [hd]
      exact ihx.2 hn
    · intro h0
      rw [hf] at h0
      exact absurd rfl (ihx.1 [] h0).1
  | .pyother => by
    refine ⟨?_, ?_, ?_⟩
    · intro v hv _
      simp [findContent] at hv
    · intro _
      rw [show dfsMatches .pyother = [] by simp [dfsMatches]]
      rfl
    · intro h0
      simp [findContent] at h0

theorem findContentVals_matches : ∀ es : PyEntries,
    (∀ v, findContentVals es = some v →
        v ≠ [] ∧ (dfsMatchesVals es).find? (fun x => !x.isEmpty) = some v)
    ∧ (findContentVals es = none →
        (dfsMatchesVals es).find? (fun x => !x.isEmpty) = none)
  | .enil => by
    refine ⟨?_, ?_⟩
    · intro v hv
      simp [findContentVals] at hv
    · intro _
      rfl
  | .econs k v rest => by
    have ihd := findContent_matches v
    have ihr := findContentVals_matches rest
    have hdm : dfsMatchesVals (.econs k v rest) = dfsMatches v ++ dfsMatchesVals rest := by
      simp [dfsMatchesVals]
    cases hv : findContent v with
    | none =>
      have hstep : findContentVals (.econs k v rest) = findContentVals rest := by
        simp [findContentVals, hv]
      have hfind : (dfsMatches v).find? (fun x => !x.isEmpty) = none := ihd.2.1 hv
      refine ⟨?_, ?_⟩
      · intro w hw
        rw [hstep] at hw
        have hrec := ihr.1 w hw
        exact ⟨hrec.1, by simp [hdm, List.find?_append, hfind, hrec.2]⟩
      · intro hn
        rw [hstep] at hn
        simp [hdm, List.find?_append, hfind, ihr.2 hn]
    | some r =>
      by_cases hre : r.isEmpty
      · have hr0 : r = [] := by simpa [List.isEmpty_iff] using hre
        subst hr0
        have hstep : findContentVals (.econs k v rest) = findContentVals rest := by
          simp [findContentVals, hv]
        obtain ⟨es', hv', hlk⟩ := ihd.2.2 hv
        have hfind : (dfsMatches v).find? (fun x => !x.isEmpty) = none := by
          rw [hv', show dfsMatches (.pydict es') = [[]] by simp [dfsMatches, hlk]]
          rw [List.find?_cons_of_neg _ (by simp)]
          rfl
        refine ⟨?_, ?_⟩
        · intro w hw
          rw [hstep] at hw
          have hrec := ihr.1 w hw
          exact ⟨hrec.1, by simp [hdm, List.find?_append, hfind, hrec.2]⟩
        · intro hn
          rw [hstep] at hn
          simp [hdm, List.find?_append, hfind, ihr.2 hn]
      · have hne : r ≠ [] := by simpa [List.isEmpty_iff] using hre
        have hstep : findContentVals (.econs k v rest) = some r := by
          simp [findContentVals, hv, hre]
        have hfst : (dfsMatches v).find? (fun x => !x.isEmpty) = some r := ihd.1 r hv hne
        refine ⟨?_, ?_⟩
        · intro w hw
          rw [hstep] at hw
          injection hw with hw
          subst hw
          exact ⟨hne, by simp [hdm, List.find?_append, hfst]⟩
        · intro hn
          rw [hstep] at hn
          cases hn

theorem findContentItems_matches : ∀ xs : PyItems,
    (∀ v, findContentItems xs = some v →
        v ≠ [] ∧ (dfsMatchesItems xs).find? (fun x => !x.isEmpty) = some v)
    ∧ (findContentItems xs = none →
        (dfsMatchesItems xs).find? (fun x => !x.isEmpty) = none)
  | .inil => by
    refine ⟨?_, ?_⟩
    · intro v hv
      simp [findContentItems] at hv
    · intro _
      rfl
  | .icons v rest => by
    have ihd := findContent_matches v
    have ihr := findContentItems_matches rest
    have hdm : dfsMatchesItems (.icons v rest) = dfsMatches v ++ dfsMatchesItems rest := by
      simp [dfsMatchesItems]
    cases hv : findContent v with
    | none =>
      have hstep : findContentItems (.icons v rest) = findContentItems rest := by
        simp [findContentItems, hv]
      have hfind : (dfsMatches v).find? (fun x => !x.isEmpty) = none := ihd.2.1 hv
      refine ⟨?_, ?_⟩
      · intro w hw
        rw [hstep] at hw
        have hrec := ihr.1 w hw
        exact ⟨hrec.1, by simp [hdm, List.find?_append, hfind, hrec.2]⟩
      · intro hn
        rw [hstep] at hn
        simp [hdm, List.find?_append, hfind, ihr.2 hn]
    | some r =>
      by_cases hre : r.isEmpty
      · have hr0 : r = [] := by simpa [List.isEmpty_iff] using hre
        subst hr0
        have hstep : findContentItems (.icons v rest) = findContentItems rest := by
          simp [findContentItems, hv]
        obtain ⟨es', hv', hlk⟩ := ihd.2.2 hv
        have hfind : (dfsMatches v).find? (fun x => !x.isEmpty) = none := by
          rw [hv', show dfsMatches (.pydict es') = [[]] by simp [dfsMatches, hlk]]
          rw [List.find?_cons_of_neg _ (by simp)]
          rfl
        refine ⟨?_, ?_⟩
        · intro w hw
          rw [hstep] at hw
          have hrec := ihr.1 w hw
          exact ⟨hrec.1, by simp [hdm, List.find?_append, hfind, hrec.2]⟩
        · intro hn
          rw [hstep] at hn
          simp [hdm, List.find?_append, hfind, ihr.2 hn]
      · have hne : r ≠ [] := by simpa [List.isEmpty_iff] using hre
        have hstep : findContentItems (.icons v rest) = some r := by
          simp [findContentItems, hv, hre]
        have hfst : (dfsMatches v).find? (fun x => !x.isEmpty) = some r := ihd.1 r hv hne
        refine ⟨?_, ?_⟩
        · intro w hw
          rw [hstep] at hw
          injection hw with hw
          subst hw
          exact ⟨hne, by simp [hdm, List.find?_append, hfst]⟩
        · intro hn
          rw [hstep] at hn
          cases hn
end

/-- C6 (amended). The recursive fallback search is depth-first (the own
"content" key of a mapping before its values, sequences element-wise); a
mapping with a string-valued "content" key contributes that value verbatim
and its subtree is searched no further; the first *non-empty* contribution
of this traversal wins, an empty one being skipped by the enclosing loop —
an empty "content" value can be returned only by the root mapping itself,
and when every contribution is empty the search reports no content. -/
theorem claim6_first_nonempty_match_wins (d : PyVal) :
    (∀ v, findContent d = some v → v ≠ [] →
        (dfsMatches d).find? (fun x => !x.isEmpty) = some v)
    ∧ (findContent d = none → (dfsMatches d).find? (fun x => !x.isEmpty) = none)
    ∧ (findContent d = some [] →
        ∃ es, d = PyVal.pydict es ∧ lookupContentKey es = some []) :=
  findContent_matches d

/-- Witness for C6 at `emptyContentEnvelope`: the code skips the empty
"content" value found first and returns the later 51-character string,
which is indeed the first non-empty entry of the match stream. -/
theorem claim6_first_nonempty_match_wins_witness :
    findContent emptyContentEnvelope = some (List.replicate 51 'z')
    ∧ (dfsMatches emptyContentEnvelope).find? (fun x => !x.isEmpty)
        = some (List.replicate 51 'z') :=
  ⟨by decide,
   (claim6_first_nonempty_match_wins emptyContentEnvelope).1 (List.replicate 51 'z')
     (by decide) (by decide)⟩

/-- Counterexample to C6 as stated: on `emptyContentEnvelope` the claimed
rule — the first mapping carrying a string-valued "content" key has that
value returned verbatim, first match wins — yields the empty string, but
the code skips that empty match and returns the later long string. -/
theorem claim6_counterexample :
    findContentClaimed emptyContentEnvelope = some []
    ∧ findContent emptyContentEnvelope = some (List.replicate 51 'z')
    ∧ findContentClaimed emptyContentEnvelope ≠ findContent emptyContentEnvelope := by
  refine ⟨by decide, by decide, by decide⟩
